import Mathlib

/-!
Verification of the rule-matching and configuration-normalization engine of
the `restrouterservice` repository (`src/main.py`, `src/router.py`,
`src/db.py`).

The embedding is shallow: JSON payloads and configuration documents become a
`JsonVal` tree; Python's `None` and JSON `null` are decoded to the same Python
value, so both are represented by `JsonVal.null`.  Rule dictionaries (shape
declared by `filter_config` in `src/db.py`: `field : str`, `op : str`,
`value : Any`, `location`, `api_endpoint`) become the `Rule` structure.
Code that can raise a Python exception is embedded in `Except Unit`; a caught
exception corresponds to recovering from `.error ()`.
-/

/-- A JSON-like value as produced by `json.loads` / FastAPI body decoding.
`null` also stands for Python `None` (they are the same runtime value).
Numbers are modelled as integers; objects are association lists with the
(unique) keys in insertion order, matching Python `dict` iteration order. -/
inductive JsonVal where
  | null : JsonVal
  | bool (b : Bool) : JsonVal
  | num (n : Int) : JsonVal
  | str (s : String) : JsonVal
  | arr (items : List JsonVal) : JsonVal
  | obj (fields : List (String × JsonVal)) : JsonVal

/-- Python `v is None` (recall `None` and JSON `null` are the same value). -/
def isNull : JsonVal → Bool
  | .null => true
  | _ => false

/-- Python truthiness of a JSON value (`None`, `False`, `0`, `""`, `[]`, `{}`
are falsy, everything else truthy). -/
def truthy : JsonVal → Bool
  | .null => false
  | .bool b => b
  | .num n => n != 0
  | .str s => s != ""
  | .arr items => !items.isEmpty
  | .obj fields => !fields.isEmpty

/-- Python's short-circuiting `a or b` on JSON values. -/
def pyOr (a b : JsonVal) : JsonVal := if truthy a then a else b

/-- Python `dict.get(k)`: the value of the first (only) binding of `k`, and
`None` when the key is missing. -/
def objGet (fields : List (String × JsonVal)) (k : String) : JsonVal :=
  match fields.find? (fun p => p.1 == k) with
  | some p => p.2
  | none => .null

mutual

/-- Python `==` on JSON-decoded values: type-sensitive except that `bool` is
an `int` subtype (`True == 1`), with deep elementwise list equality and
key-for-key dict equality. -/
def pyEq : JsonVal → JsonVal → Bool
  | .null, .null => true
  | .bool a, .bool b => a == b
  | .bool a, .num n => (if a then (1 : Int) else 0) == n
  | .num n, .bool b => n == (if b then (1 : Int) else 0)
  | .num a, .num b => a == b
  | .str a, .str b => a == b
  | .arr a, .arr b => pyEqList a b
  | .obj a, .obj b => a.length == b.length && pyEqObj a b
  | _, _ => false

def pyEqList : List JsonVal → List JsonVal → Bool
  | [], [] => true
  | a :: as, b :: bs => pyEq a b && pyEqList as bs
  | _, _ => false

def pyEqObj : List (String × JsonVal) → List (String × JsonVal) → Bool
  | [], _ => true
  | p :: rest, b =>
    (match b.find? (fun q => q.1 == p.1) with
     | some q => pyEq p.2 q.2
     | none => false) && pyEqObj rest b

end

/-- Substring test on character lists (Python `needle in haystack` for
strings). -/
def charsContains (hay needle : List Char) : Bool :=
  hay.tails.any (fun t => needle.isPrefixOf t)

/-- Python `expected in actual`.  Strings support only string needles
(otherwise `TypeError`); lists iterate with `==` on elements, for any
needle; dicts hash the needle before testing keys, so an unhashable needle
(a list or a dict) raises `TypeError`, while hashable non-string needles
simply match no string key; `None`, numbers and booleans do not support
membership and raise (`.error ()`). -/
def memberE (expected : JsonVal) : JsonVal → Except Unit Bool
  | .str t =>
    match expected with
    | .str s => .ok (charsContains t.data s.data)
    | _ => .error ()
  | .arr items => .ok (items.any (fun v => pyEq expected v))
  | .obj fields =>
    match expected with
    | .arr _ => .error ()
    | .obj _ => .error ()
    | _ => .ok (fields.any (fun p => pyEq expected (.str p.1)))
  | _ => .error ()

/-- Python `str.lower()` (the op strings handled here are ASCII). -/
def lowerStr (s : String) : String := String.mk (s.data.map Char.toLower)

/-- A rule dictionary with the canonical keys
`field`, `op`, `value`, `api_endpoint`, `location`
(shape declared by `filter_config` in `src/db.py`; `field`/`op` are strings
when present, `None` when missing; `value`, `api_endpoint` and `location`
are arbitrary JSON). -/
structure Rule where
  field : Option String
  op : Option String
  value : JsonVal
  api_endpoint : JsonVal
  location : JsonVal

/-- Python `fld.split(".")` on the underlying characters. -/
def splitDotChars : List Char → List (List Char)
  | [] => [[]]
  | c :: rest =>
    match splitDotChars rest with
    | [] => [[]]
    | seg :: segs => if c = '.' then [] :: seg :: segs else (c :: seg) :: segs

/-- Python `fld.split(".")`. -/
def splitDot (s : String) : List String := (splitDotChars s.data).map String.mk

/-- Python `"." in fld`. -/
def hasDot (s : String) : Bool := s.data.contains '.'

/-- The dotted-path loop shared verbatim by `_get_field` in `src/main.py`
(lines 158-165) and `src/router.py` (lines 145-151): descend one mapping
level per segment, returning `None` as soon as the current node is not a
mapping or lacks the key. -/
def walkPath : JsonVal → List String → JsonVal
  | cur, [] => cur
  | cur, p :: rest =>
    match cur with
    | .obj fields =>
      match fields.find? (fun q => q.1 == p) with
      | some q => walkPath q.2 rest
      | none => .null
    | _ => .null

mutual

/-- `_find_recursive` from `src/main.py` (lines 168-181): depth-first search
for a mapping containing `k`; a mapping holding the key returns its value
immediately, and a `None` result from a child is treated as "not found"
(`if result is not None`), so the search continues past it. -/
def findRecursive (k : String) : JsonVal → JsonVal
  | .obj fields =>
    match fields.find? (fun p => p.1 == k) with
    | some p => p.2
    | none => findRecFields k fields
  | .arr items => findRecItems k items
  | _ => .null

def findRecFields (k : String) : List (String × JsonVal) → JsonVal
  | [] => .null
  | p :: rest =>
    match findRecursive k p.2 with
    | .null => findRecFields k rest
    | r => r

def findRecItems (k : String) : List JsonVal → JsonVal
  | [] => .null
  | v :: rest =>
    match findRecursive k v with
    | .null => findRecItems k rest
    | r => r

end

/-- `_get_field` from `src/main.py` (lines 153-183): `None` field resolves to
`None`; a dotted field uses exact path traversal; a bare key uses the
recursive search. -/
def getFieldMain (d : JsonVal) : Option String → JsonVal
  | none => .null
  | some s => if hasDot s then walkPath d (splitDot s) else findRecursive s d

/-- `_get_field` from `src/router.py` (lines 142-151): always splits on `.`
and walks the path (a bare key is a one-segment path at the top level). -/
def getFieldRouter (d : JsonVal) : Option String → JsonVal
  | none => .null
  | some s => walkPath d (splitDot s)

/-- The comparison block of `_eval_rule` (`src/main.py` lines 194-206,
identical in `src/router.py` lines 160-175): the four operators, with
membership errors escaping as exceptions and any other operator yielding
`False`. -/
def evalOpE (op : String) (expected actual : JsonVal) : Except Unit Bool :=
  if op = "eq" then .ok (pyEq actual expected)
  else if op = "neq" then .ok (!pyEq actual expected)
  else if op = "in" then
    if isNull actual then .ok false else memberE expected actual
  else if op = "nin" then
    if isNull actual then .ok true
    else do
      let b ← memberE expected actual
      .ok (!b)
  else .ok false

/-- `_eval_rule` from `src/main.py` (lines 126-212) on a dict-shaped rule:
lower-case the operator (`rule.get("op") or ""`), resolve the field, run the
comparison block, and coerce a raised comparison error to `False`
(the `except` on line 210). -/
def evalRuleMain (rule : Rule) (data : JsonVal) : Bool :=
  let op := lowerStr (rule.op.getD "")
  let expected := rule.value
  let actual := getFieldMain data rule.field
  match evalOpE op expected actual with
  | .ok b => b
  | .error _ => false

/-- `_eval_rule` from `src/router.py` (lines 116-175): identical except that
field resolution never searches recursively. -/
def evalRuleRouter (rule : Rule) (data : JsonVal) : Bool :=
  let op := lowerStr (rule.op.getD "")
  let expected := rule.value
  let actual := getFieldRouter data rule.field
  match evalOpE op expected actual with
  | .ok b => b
  | .error _ => false

/-- `find_matching_filter` from `src/main.py` (lines 215-225): return the
first rule that evaluates to `True`, else `None`. -/
def find_matching_filter (data : JsonVal) : List Rule → Option Rule
  | [] => none
  | r :: rest =>
    if evalRuleMain r data then some r else find_matching_filter data rest

/-- An element of a list-form configuration as classified by
`_normalize_filters` (`src/main.py` lines 75-79): a rule dict, an object
with a `to_dict()` conversion (a `FilterConfigs` instance, whose `to_dict`
yields a rule dict), or anything else (silently dropped). -/
inductive RawItem where
  | rule (r : Rule) : RawItem
  | objLike (r : Rule) : RawItem
  | other : RawItem

/-- A raw configuration document as dispatched by `_normalize_filters`:
a list, a legacy mapping `{field: {matchValue: dest}}`, or any other shape. -/
inductive RawConfig where
  | list (items : List RawItem) : RawConfig
  | map (entries : List (String × JsonVal)) : RawConfig
  | other : RawConfig

/-- One `(match_value, dest)` legacy entry (`src/main.py` lines 87-103):
a string destination becomes an `eq` rule; a dict destination extracts the
operator via `(dest.get("op") or "eq").lower()` — which raises when the
truthy operator value is not a string — the destination via the
`api_endpoint`/`endpoint`/`target` alias chain of Python `or`s, and the
location via `dest.get("location") or None`; any other destination shape
appends nothing. -/
def legacyDest (field mv : String) (dest : JsonVal) : Except Unit (List Rule) :=
  match dest with
  | .str s => .ok [⟨some field, some "eq", .str mv, .str s, .null⟩]
  | .obj dfields =>
    match pyOr (objGet dfields "op") (.str "eq") with
    | .str s =>
      .ok [⟨some field, some (lowerStr s), .str mv,
            pyOr (pyOr (objGet dfields "api_endpoint") (objGet dfields "endpoint"))
              (objGet dfields "target"),
            pyOr (objGet dfields "location") .null⟩]
    | _ => .error ()
  | _ => .ok []

/-- The inner legacy loop over one field's `{match_value: dest}` mapping
(`src/main.py` line 87). -/
def legacyFields (field : String) : List (String × JsonVal) → Except Unit (List Rule)
  | [] => .ok []
  | p :: rest => do
    let here ← legacyDest field p.1 p.2
    let there ← legacyFields field rest
    .ok (here ++ there)

/-- The outer legacy loop (`src/main.py` lines 84-86): non-dict values of the
top-level mapping are skipped with `continue`. -/
def legacyAll : List (String × JsonVal) → Except Unit (List Rule)
  | [] => .ok []
  | p :: rest => do
    let here ←
      match p.2 with
      | .obj mfields => legacyFields p.1 mfields
      | _ => .ok []
    let there ← legacyAll rest
    .ok (here ++ there)

/-- The body of `_normalize_filters` before its `try`/`except`
(`src/main.py` lines 73-106): lists pass rule dicts and `to_dict()` results
through, legacy mappings expand, and any other shape yields `[]`. -/
def normalizeCore : RawConfig → Except Unit (List Rule)
  | .list items =>
    .ok (items.filterMap fun item =>
      match item with
      | .rule r => some r
      | .objLike r => some r
      | .other => none)
  | .map entries => legacyAll entries
  | .other => .ok []

/-- `_normalize_filters` from `src/main.py` (lines 64-109): the whole body is
wrapped in `try`/`except` returning `[]` on any exception. -/
def normalize_filters (cfg : RawConfig) : List Rule :=
  match normalizeCore cfg with
  | .ok rules => rules
  | .error _ => []

/-- The persisted document form of a normalized rule list: a JSON list of
rule dicts (what `save_config_to_db` stores and `load_config_from_db`
returns). -/
def toDocument (rules : List Rule) : RawConfig := .list (rules.map RawItem.rule)

/-- Python `uri.replace('\x5c', '/')` on a string. -/
def replaceBackslash (s : String) : String :=
  String.mk (s.data.map (fun c => if c = '\\' then '/' else c))

/-- Python `"\x5c" in v` for the startup canonicalization guard: strings test
substrings, lists test elements, dicts test keys; numbers and booleans (and
`None`) raise `TypeError`. -/
def containsBackslashE : JsonVal → Except Unit Bool
  | .str s => .ok (s.data.contains '\\')
  | .arr items => .ok (items.any (fun v => pyEq (.str "\\") v))
  | .obj fields => .ok (fields.any (fun p => p.1 == "\\"))
  | _ => .error ()

/-- The startup canonicalization of one rule (`src/main.py` lines 117-119):
when the destination is truthy and contains a backslash, replace backslashes
with forward slashes; replacing on a non-string destination raises. -/
def canonRuleE (r : Rule) : Except Unit Rule :=
  if truthy r.api_endpoint then do
    let b ← containsBackslashE r.api_endpoint
    if b then
      match r.api_endpoint with
      | .str s => .ok ⟨r.field, r.op, r.value, .str (replaceBackslash s), r.location⟩
      | _ => .error ()
    else .ok r
  else .ok r

/-- The startup canonicalization loop over `NORMALIZED_RULES`
(`src/main.py` lines 117-119).  It runs once at module load, after the
initial `_normalize_filters` call and before `save_config_to_db`; it is not
part of `_normalize_filters`. -/
def canonicalizeRulesE : List Rule → Except Unit (List Rule)
  | [] => .ok []
  | r :: rest => do
    let r' ← canonRuleE r
    let rest' ← canonicalizeRulesE rest
    .ok (r' :: rest')

/-- The effect of Python `dict.update` on one existing entry: keep its key
and position, take the update's value when the update names the key. -/
def dictUpdateEntry (upd : List (String × JsonVal)) (p : String × JsonVal) :
    String × JsonVal :=
  match upd.find? (fun q => q.1 == p.1) with
  | some q => (p.1, q.2)
  | none => p

/-- Python `dict.update`: existing keys keep their position and take the new
value, new keys are appended in update order. -/
def dictUpdate (old upd : List (String × JsonVal)) : List (String × JsonVal) :=
  old.map (dictUpdateEntry upd)
  ++ upd.filter (fun q => (old.find? (fun p => p.1 == q.1)).isNone)

/-- `update_filter_config` from `src/main.py` (lines 327-345), as a pure
state transformer on `FILTER_CONFIG`: merge when the active document is a
dict, otherwise replace it wholesale with the update dict; the new
`NORMALIZED_RULES` is `_normalize_filters` of the result (no backslash
canonicalization on this path). -/
def update_filter_config (active : RawConfig) (cfg : List (String × JsonVal)) :
    RawConfig × List Rule :=
  let merged : RawConfig :=
    match active with
    | .map entries => .map (dictUpdate entries cfg)
    | _ => .map cfg
  (merged, normalize_filters merged)

/-- Modelled from the spec (section 4.1): exact dotted-path lookup returning
`absent` (`none`) when a segment is missing or the current node is not a
mapping, and the stored value — JSON `null` included — otherwise.  This is
the spec-side reading in which absent is distinct from `null`. -/
def specPathLookup : JsonVal → List String → Option JsonVal
  | cur, [] => some cur
  | cur, p :: rest =>
    match cur with
    | .obj fields =>
      match fields.find? (fun q => q.1 == p) with
      | some q => specPathLookup q.2 rest
      | none => none
    | _ => none

mutual

/-- Modelled from the spec (section 4.1): depth-first search for the first
mapping containing the key, in traversal order — mapping keys in stored
order, sequence elements in index order, a mapping tested for the key before
its children — returning the value of the first match (JSON `null`
included), `none` when no mapping contains the key. -/
def dfsFirst (k : String) : JsonVal → Option JsonVal
  | .obj fields =>
    match fields.find? (fun p => p.1 == k) with
    | some p => some p.2
    | none => dfsFirstFields k fields
  | .arr items => dfsFirstItems k items
  | _ => none

def dfsFirstFields (k : String) : List (String × JsonVal) → Option JsonVal
  | [] => none
  | p :: rest =>
    match dfsFirst k p.2 with
    | some r => some r
    | none => dfsFirstFields k rest

def dfsFirstItems (k : String) : List JsonVal → Option JsonVal
  | [] => none
  | v :: rest =>
    match dfsFirst k v with
    | some r => some r
    | none => dfsFirstItems k rest

end

mutual

/-- No mapping anywhere in the tree binds key `k` to JSON `null`. -/
def noNullBind (k : String) : JsonVal → Bool
  | .obj fields => noNullBindFields k fields
  | .arr items => noNullBindItems k items
  | _ => true

def noNullBindFields (k : String) : List (String × JsonVal) → Bool
  | [] => true
  | p :: rest =>
    !(p.1 == k && isNull p.2) && noNullBind k p.2 && noNullBindFields k rest

def noNullBindItems (k : String) : List JsonVal → Bool
  | [] => true
  | v :: rest => noNullBind k v && noNullBindItems k rest

end

/-- Modelled from the spec's words for claim C4: "destination (first
non-absent of provider-specific destination key aliases)" — the first of
`api_endpoint`, `endpoint`, `target` that is present (not `None`),
regardless of truthiness. -/
def specFirstNonAbsent (dfields : List (String × JsonVal)) : JsonVal :=
  match objGet dfields "api_endpoint" with
  | .null =>
    match objGet dfields "endpoint" with
    | .null => objGet dfields "target"
    | v => v
  | v => v

/-- The first truthy of the three destination aliases (falling back to the
`target` value, absent included) — what the Python `or` chain computes. -/
def specFirstTruthy (dfields : List (String × JsonVal)) : JsonVal :=
  if truthy (objGet dfields "api_endpoint") then objGet dfields "api_endpoint"
  else if truthy (objGet dfields "endpoint") then objGet dfields "endpoint"
  else objGet dfields "target"

/-- The operator a dict-shaped legacy destination yields: its `op` value
lower-cased when that value is a truthy string, `eq` otherwise. -/
def specOpOf (dfields : List (String × JsonVal)) : String :=
  match objGet dfields "op" with
  | .str s => if s == "" then "eq" else lowerStr s
  | _ => "eq"

/-- The location a dict-shaped legacy destination yields: its `location`
value when truthy, absent otherwise. -/
def specLocOf (dfields : List (String × JsonVal)) : JsonVal :=
  if truthy (objGet dfields "location") then objGet dfields "location" else .null

/-- The rule(s) one legacy `(field, matchValue, dest)` entry should expand
to, per the amended claim C4: one `eq` rule for a string destination, one
rule built from the alias chain for a dict destination, nothing for any
other shape. -/
def expandDestSpec (field mv : String) (dest : JsonVal) : List Rule :=
  match dest with
  | .str s => [⟨some field, some "eq", .str mv, .str s, .null⟩]
  | .obj dfields =>
    [⟨some field, some (specOpOf dfields), .str mv, specFirstTruthy dfields,
      specLocOf dfields⟩]
  | _ => []

/-- The full legacy expansion in mapping iteration order, per the amended
claim C4. -/
def legacyExpandSpec (entries : List (String × JsonVal)) : List Rule :=
  entries.flatMap fun fe =>
    match fe.2 with
    | .obj mfields => mfields.flatMap fun md => expandDestSpec fe.1 md.1 md.2
    | _ => []

/-- The `op` value of a dict-shaped destination is a string or falsy (the
shapes on which `(dest.get("op") or "eq").lower()` does not raise). -/
def destOpOk : JsonVal → Bool
  | .obj dfields =>
    match objGet dfields "op" with
    | .str _ => true
    | v => !truthy v
  | _ => true

/-- Every dict-shaped legacy destination in the document has an `op` value
that is a string or falsy. -/
def legacyOpsOk (entries : List (String × JsonVal)) : Bool :=
  entries.all fun fe =>
    match fe.2 with
    | .obj mfields => mfields.all fun md => destOpOk md.2
    | _ => true

/-- The payload's top-level mapping contains the key. -/
def topHasKey (d : JsonVal) (s : String) : Bool :=
  match d with
  | .obj fields => (fields.find? (fun p => p.1 == s)).isSome
  | _ => false


/-! ## Helper lemmas -/

theorem splitDotChars_no_dot (cs : List Char) (h : '.' ∉ cs) : splitDotChars cs = [cs] := by
  induction cs with
  | nil => rfl
  | cons c cs ih =>
    simp only [List.mem_cons, not_or] at h
    have hc : ¬(c = '.') := fun hh => h.1 hh.symm
    rw [splitDotChars, ih h.2]
    simp only [if_neg hc]

theorem splitDot_no_dot (s : String) (h : hasDot s = false) : splitDot s = [s] := by
  have h' : '.' ∉ s.data := by simpa [hasDot] using h
  rw [splitDot, splitDotChars_no_dot s.data h']
  rfl

theorem replaceBackslash_clean (s : String) :
    (replaceBackslash s).data.contains '\\' = false := by
  show ((s.data.map fun c => if c = '\\' then '/' else c).contains '\\') = false
  induction s.data with
  | nil => rfl
  | cons c cs ih =>
    by_cases hc : c = '\\'
    · subst hc
      simpa using ih
    · simp only [List.map_cons, if_neg hc, List.contains_cons, ih, Bool.or_false]
      exact beq_eq_false_iff_ne.mpr (fun hh => hc hh.symm)

theorem walkPath_specPathLookup (parts : List String) :
    ∀ d : JsonVal, walkPath d parts = (specPathLookup d parts).getD .null := by
  induction parts with
  | nil => intro d; rfl
  | cons p rest ih =>
    intro d
    cases d with
    | obj fields =>
      simp only [walkPath, specPathLookup]
      cases hf : fields.find? (fun q => q.1 == p) with
      | some q => simpa using ih q.2
      | none => rfl
    | null => rfl
    | bool b => rfl
    | num n => rfl
    | str s => rfl
    | arr items => rfl

/-- C1: the matcher returns the first rule (in list order) whose evaluation
is `true`, regardless of the matched rule's destination, and `none` when no
rule evaluates to `true`. -/
theorem C1_matcher_first_match (data : JsonVal) :
    (∀ filters : List Rule,
      find_matching_filter data filters = filters.find? (fun r => evalRuleMain r data)) ∧
    (∀ (r : Rule) (rest : List Rule), evalRuleMain r data = true →
      find_matching_filter data (r :: rest) = some r) ∧
    (∀ filters : List Rule, (∀ r ∈ filters, evalRuleMain r data = false) →
      find_matching_filter data filters = none) := by
  have hfind : ∀ filters : List Rule,
      find_matching_filter data filters = filters.find? (fun r => evalRuleMain r data) := by
    intro filters
    induction filters with
    | nil => rfl
    | cons r rest ih =>
      by_cases h : evalRuleMain r data <;>
        simp [find_matching_filter, List.find?_cons, h, ih]
  refine ⟨hfind, ?_, ?_⟩
  · intro r rest h
    simp [find_matching_filter, h]
  · intro filters h
    rw [hfind]
    exact List.find?_eq_none.mpr (fun r hr => by simp [h r hr])

/-- Witness for C1 at concrete inputs: the first matching rule wins even
though its destination is absent, and no match yields `none`. -/
theorem C1_matcher_first_match_witness :
    find_matching_filter (.obj [("user", .num 1)])
      [⟨some "user", some "eq", .num 1, .null, .null⟩,
       ⟨some "user", some "eq", .num 1, .str "http://b", .null⟩]
      = some ⟨some "user", some "eq", .num 1, .null, .null⟩ ∧
    find_matching_filter (.obj [("user", .num 3)])
      [⟨some "user", some "eq", .num 1, .str "http://a", .null⟩,
       ⟨some "user", some "eq", .num 2, .str "http://b", .null⟩]
      = none := by
  constructor
  · exact (C1_matcher_first_match _).2.1 _ _ rfl
  · refine (C1_matcher_first_match _).2.2 _ ?_
    intro r hr
    cases hr with
    | head => rfl
    | tail _ h2 =>
      cases h2 with
      | head => rfl
      | tail _ h3 => cases h3

/-- C2: the evaluator's operator table — `eq` is Python deep equality
(type-sensitive: `1` and `"1"` differ), `neq` its negation, `in` requires a
present value with a succeeding membership test, `nin` holds for an absent
value or a succeeding non-membership test, and any other operator (after
lower-casing) never matches. -/
theorem C2_evaluator_semantics (rule : Rule) (data : JsonVal) :
    (lowerStr (rule.op.getD "") = "eq" →
      evalRuleMain rule data = pyEq (getFieldMain data rule.field) rule.value) ∧
    (lowerStr (rule.op.getD "") = "neq" →
      evalRuleMain rule data = !pyEq (getFieldMain data rule.field) rule.value) ∧
    (lowerStr (rule.op.getD "") = "in" →
      (evalRuleMain rule data = true ↔
        isNull (getFieldMain data rule.field) = false ∧
        memberE rule.value (getFieldMain data rule.field) = .ok true)) ∧
    (lowerStr (rule.op.getD "") = "nin" →
      (evalRuleMain rule data = true ↔
        isNull (getFieldMain data rule.field) = true ∨
        memberE rule.value (getFieldMain data rule.field) = .ok false)) ∧
    (lowerStr (rule.op.getD "") ≠ "eq" → lowerStr (rule.op.getD "") ≠ "neq" →
      lowerStr (rule.op.getD "") ≠ "in" → lowerStr (rule.op.getD "") ≠ "nin" →
      evalRuleMain rule data = false) ∧
    pyEq (.num 1) (.str "1") = false := by
  refine ⟨?_, ?_, ?_, ?_, ?_, rfl⟩
  · intro h
    simp [evalRuleMain, evalOpE, h]
  · intro h
    simp [evalRuleMain, evalOpE, h]
  · intro h
    simp only [evalRuleMain, evalOpE, h]
    norm_num
    cases hN : isNull (getFieldMain data rule.field) with
    | true => simp
    | false =>
      simp only [Bool.false_eq_true, if_false]
      cases hm : memberE rule.value (getFieldMain data rule.field) with
      | ok b => cases b <;> simp
      | error e => simp
  · intro h
    simp only [evalRuleMain, evalOpE, h]
    norm_num
    cases hN : isNull (getFieldMain data rule.field) with
    | true => simp
    | false =>
      simp only [Bool.false_eq_true, if_false]
      cases hm : memberE rule.value (getFieldMain data rule.field) with
      | ok b =>
        cases b <;> simp [Bind.bind, Except.bind]
      | error e => simp [Bind.bind, Except.bind]
  · intro h1 h2 h3 h4
    simp only [evalRuleMain, evalOpE, if_neg h1, if_neg h2, if_neg h3, if_neg h4]

/-- Witness for C2 at concrete inputs: a capitalized `IN` rule matching a
list membership, and a bogus operator never matching. -/
theorem C2_evaluator_semantics_witness :
    evalRuleMain ⟨some "tags", some "IN", .str "admin", .null, .null⟩
      (.obj [("tags", .arr [.str "admin", .str "user"])]) = true ∧
    evalRuleMain ⟨some "tags", some "bogus", .str "admin", .null, .null⟩
      (.obj [("tags", .arr [.str "admin", .str "user"])]) = false := by
  constructor
  · exact ((C2_evaluator_semantics ⟨some "tags", some "IN", .str "admin", .null, .null⟩
      (.obj [("tags", .arr [.str "admin", .str "user"])])).2.2.1 rfl).mpr ⟨rfl, rfl⟩
  · exact (C2_evaluator_semantics ⟨some "tags", some "bogus", .str "admin", .null, .null⟩
      (.obj [("tags", .arr [.str "admin", .str "user"])])).2.2.2.2.1
      (by decide) (by decide) (by decide) (by decide)

/-- C7: the normalizer is total — any shape that is neither a list nor a
mapping yields the empty rule list — and the evaluator on a rule and payload
always returns a boolean, coercing a failed membership test (a `TypeError`
inside the comparison block) to `false`. -/
theorem C7_core_functions_total :
    (∀ cfg : RawConfig, (∀ items, cfg ≠ .list items) → (∀ entries, cfg ≠ .map entries) →
      normalize_filters cfg = []) ∧
    (∀ (rule : Rule) (data : JsonVal),
      evalRuleMain rule data = true ∨ evalRuleMain rule data = false) ∧
    (∀ (rule : Rule) (data : JsonVal),
      (lowerStr (rule.op.getD "") = "in" ∨ lowerStr (rule.op.getD "") = "nin") →
      isNull (getFieldMain data rule.field) = false →
      memberE rule.value (getFieldMain data rule.field) = .error () →
      evalRuleMain rule data = false) := by
  refine ⟨?_, ?_, ?_⟩
  · intro cfg h1 h2
    cases cfg with
    | list items => exact absurd rfl (h1 items)
    | map entries => exact absurd rfl (h2 entries)
    | other => rfl
  · intro rule data
    cases evalRuleMain rule data
    · exact Or.inr rfl
    · exact Or.inl rfl
  · intro rule data hop hnull herr
    rcases hop with h | h <;>
      simp [evalRuleMain, evalOpE, h, hnull, herr, Bind.bind, Except.bind]

/-- Witness for C7 at concrete inputs: an unrecognized document shape
normalizes to no rules, and an `in` rule over a number (no membership
support) evaluates to `false` instead of raising. -/
theorem C7_core_functions_total_witness :
    normalize_filters .other = [] ∧
    evalRuleMain ⟨some "k", some "in", .str "x", .null, .null⟩
      (.obj [("k", .num 5)]) = false := by
  constructor
  · exact C7_core_functions_total.1 .other
      (fun items h => RawConfig.noConfusion h)
      (fun entries h => RawConfig.noConfusion h)
  · exact C7_core_functions_total.2.2 ⟨some "k", some "in", .str "x", .null, .null⟩
      (.obj [("k", .num 5)]) (Or.inl rfl) rfl rfl

/-- C8: normalization is idempotent and order-preserving — re-normalizing
the document form of a normalized rule list returns exactly that list. -/
theorem C8_normalize_idempotent (cfg : RawConfig) :
    normalize_filters (toDocument (normalize_filters cfg)) = normalize_filters cfg := by
  have key : ∀ rules : List Rule, normalize_filters (toDocument rules) = rules := by
    intro rules
    induction rules with
    | nil => rfl
    | cons r rest ih =>
      simp only [toDocument, normalize_filters, normalizeCore, List.map_cons,
        List.filterMap_cons] at ih ⊢
      cases hc : normalizeCore (toDocument rest) <;> simp_all [toDocument,
        normalize_filters, normalizeCore]
  exact key _

/-- C9: the resolver can never hand the evaluator a JSON `null` distinct
from "absent": a dotted path ending at a stored `null` resolves exactly like
a missing path (the spec-side lookup returning `some null` or `none` both
give the code's `null`), and the bare-key search skips a first occurrence
whose value is `null`, returning a later occurrence's value instead. -/
theorem C9_resolver_conflates_null :
    (∀ (d : JsonVal) (parts : List String),
      specPathLookup d parts = some .null ∨ specPathLookup d parts = none →
      walkPath d parts = .null) ∧
    (findRecursive "k" (.obj [("a", .obj [("k", .null)]), ("b", .obj [("k", .num 5)])])
        = .num 5 ∧
     dfsFirst "k" (.obj [("a", .obj [("k", .null)]), ("b", .obj [("k", .num 5)])])
        = some JsonVal.null) := by
  refine ⟨?_, rfl, rfl⟩
  intro d parts h
  rcases h with h | h <;> rw [walkPath_specPathLookup parts d, h] <;> rfl

/-- Witness for C9 at a concrete input: a top-level key stored as `null`
resolves to the same `null` a missing key would. -/
theorem C9_resolver_conflates_null_witness :
    walkPath (.obj [("a", .null)]) ["a"] = .null :=
  C9_resolver_conflates_null.1 (.obj [("a", .null)]) ["a"] (Or.inl rfl)

theorem pyOr_chain (a b c : JsonVal) :
    pyOr (pyOr a b) c =
      if truthy a then a else if truthy b then b else c := by
  by_cases ha : truthy a <;> by_cases hb : truthy b <;> simp [pyOr, ha, hb]

theorem specFirstTruthy_pyOr (dfields : List (String × JsonVal)) :
    pyOr (pyOr (objGet dfields "api_endpoint") (objGet dfields "endpoint"))
        (objGet dfields "target")
      = specFirstTruthy dfields := by
  rw [pyOr_chain]
  rfl

theorem specLocOf_pyOr (dfields : List (String × JsonVal)) :
    pyOr (objGet dfields "location") .null = specLocOf dfields := rfl

theorem legacyDest_ok (field mv : String) (dest : JsonVal) (h : destOpOk dest = true) :
    legacyDest field mv dest = .ok (expandDestSpec field mv dest) := by
  cases dest with
  | str s => rfl
  | null => rfl
  | bool b => rfl
  | num n => rfl
  | arr items => rfl
  | obj dfields =>
    simp only [destOpOk] at h
    simp only [legacyDest, expandDestSpec, specFirstTruthy_pyOr, specLocOf_pyOr]
    have heq : lowerStr "eq" = "eq" := rfl
    cases hop : objGet dfields "op" with
    | str s =>
      by_cases hs : s = ""
      · subst hs
        simp [pyOr, truthy, specOpOf, hop, heq]
      · have ht : truthy (JsonVal.str s) = true := by simp [truthy, hs]
        simp [pyOr, ht, specOpOf, hop, hs]
    | null =>
      simp [pyOr, truthy, specOpOf, hop, heq]
    | bool b =>
      rw [hop] at h
      have hb : b = false := by simpa [truthy] using h
      subst hb
      simp [pyOr, truthy, specOpOf, hop, heq]
    | num n =>
      rw [hop] at h
      have hn : n = 0 := by simpa [truthy] using h
      subst hn
      simp [pyOr, truthy, specOpOf, hop, heq]
    | arr items =>
      rw [hop] at h
      have hi : items.isEmpty = true := by simpa [truthy] using h
      simp [pyOr, truthy, hi, specOpOf, hop, heq]
    | obj fs =>
      rw [hop] at h
      have hi : fs.isEmpty = true := by simpa [truthy] using h
      simp [pyOr, truthy, hi, specOpOf, hop, heq]

theorem legacyFields_ok (field : String) (mfields : List (String × JsonVal))
    (h : mfields.all (fun md => destOpOk md.2) = true) :
    legacyFields field mfields
      = .ok (mfields.flatMap fun md => expandDestSpec field md.1 md.2) := by
  induction mfields with
  | nil => rfl
  | cons md rest ih =>
    simp only [List.all_cons, Bool.and_eq_true] at h
    simp only [legacyFields, legacyDest_ok field md.1 md.2 h.1, ih h.2,
      List.flatMap_cons, Bind.bind, Except.bind]

theorem legacyAll_ok (entries : List (String × JsonVal))
    (h : legacyOpsOk entries = true) :
    legacyAll entries = .ok (legacyExpandSpec entries) := by
  induction entries with
  | nil => rfl
  | cons fe rest ih =>
    simp only [legacyOpsOk, List.all_cons, Bool.and_eq_true] at h
    have hrest := ih h.2
    cases hfe : fe.2 with
    | obj mfields =>
      rw [hfe] at h
      simp only [legacyAll, hfe, legacyFields_ok fe.1 mfields h.1, hrest,
        legacyExpandSpec, List.flatMap_cons, hfe, Bind.bind, Except.bind]
    | null =>
      simp only [legacyAll, hfe, hrest, legacyExpandSpec, List.flatMap_cons, hfe,
        Bind.bind, Except.bind]
    | bool b =>
      simp only [legacyAll, hfe, hrest, legacyExpandSpec, List.flatMap_cons, hfe,
        Bind.bind, Except.bind]
    | num n =>
      simp only [legacyAll, hfe, hrest, legacyExpandSpec, List.flatMap_cons, hfe,
        Bind.bind, Except.bind]
    | str s =>
      simp only [legacyAll, hfe, hrest, legacyExpandSpec, List.flatMap_cons, hfe,
        Bind.bind, Except.bind]
    | arr items =>
      simp only [legacyAll, hfe, hrest, legacyExpandSpec, List.flatMap_cons, hfe,
        Bind.bind, Except.bind]

/-- C4 counterexample: the claim's "first non-absent of the destination key
aliases" fails — with `api_endpoint` present but empty, the code's `or`
chain skips it and picks `endpoint`. -/
theorem C4_counterexample :
    (normalize_filters (.map [("f", .obj [("v",
        .obj [("api_endpoint", .str ""), ("endpoint", .str "http://e")])])])).map
      Rule.api_endpoint = [.str "http://e"] ∧
    specFirstNonAbsent [("api_endpoint", .str ""), ("endpoint", .str "http://e")]
      = .str "" ∧
    (JsonVal.str "http://e" = .str "" → False) :=
  ⟨rfl, rfl, fun h => absurd (JsonVal.str.inj h) (by decide)⟩

/-- C4 (amended): for a legacy mapping whose dict-shaped destinations carry
a string-or-falsy `op`, normalization expands each `(field, matchValue)`
pair in iteration order — a string destination gives an `eq` rule with that
destination; a dict destination gives a rule whose operator is its truthy
string `op` lower-cased (else `eq`), whose destination is the first *truthy*
of `api_endpoint`/`endpoint`/`target` (falling back to the `target` value),
and whose location is its `location` when truthy (else absent); other
destination shapes yield no rule. -/
theorem C4_legacy_normalization (entries : List (String × JsonVal))
    (h : legacyOpsOk entries = true) :
    normalize_filters (.map entries) = legacyExpandSpec entries := by
  simp [normalize_filters, normalizeCore, legacyAll_ok entries h]

/-- Witness for C4 at the spec's own example mapping. -/
theorem C4_legacy_normalization_witness :
    normalize_filters (.map [("user_type",
        .obj [("premium", .str "http://a"), ("standard", .str "http://b")])])
      = [⟨some "user_type", some "eq", .str "premium", .str "http://a", .null⟩,
         ⟨some "user_type", some "eq", .str "standard", .str "http://b", .null⟩] :=
  C4_legacy_normalization
    [("user_type", .obj [("premium", .str "http://a"), ("standard", .str "http://b")])]
    rfl

theorem canonRuleE_clean (r r' : Rule) (h : canonRuleE r = .ok r') :
    ∀ s, r'.api_endpoint = .str s → s.data.contains '\\' = false := by
  intro s hs
  by_cases ht : truthy r.api_endpoint
  · rw [canonRuleE, if_pos ht] at h
    cases hep : r.api_endpoint with
    | str s0 =>
      rw [hep] at h
      simp only [containsBackslashE, Bind.bind, Except.bind] at h
      by_cases hb : s0.data.contains '\\' = true
      · rw [if_pos hb] at h
        cases h
        cases hs
        exact replaceBackslash_clean s0
      · rw [if_neg hb, Except.ok.injEq] at h
        subst h
        rw [hep] at hs
        cases hs
        exact Bool.not_eq_true _ |>.mp hb
    | null =>
      rw [hep] at ht
      simp [truthy] at ht
    | bool b =>
      rw [hep] at h
      simp only [containsBackslashE, Bind.bind, Except.bind] at h
      cases h
    | num n =>
      rw [hep] at h
      simp only [containsBackslashE, Bind.bind, Except.bind] at h
      cases h
    | arr items =>
      rw [hep] at h
      simp only [containsBackslashE, Bind.bind, Except.bind] at h
      by_cases hb : items.any (fun v => pyEq (.str "\\") v) = true
      · rw [if_pos hb] at h
        cases h
      · rw [if_neg hb, Except.ok.injEq] at h
        subst h
        rw [hep] at hs
        cases hs
    | obj fields =>
      rw [hep] at h
      simp only [containsBackslashE, Bind.bind, Except.bind] at h
      by_cases hb : fields.any (fun p => p.1 == "\\") = true
      · rw [if_pos hb] at h
        cases h
      · rw [if_neg hb, Except.ok.injEq] at h
        subst h
        rw [hep] at hs
        cases hs
  · rw [canonRuleE, if_neg ht, Except.ok.injEq] at h
    subst h
    rw [hs] at ht
    have : s = "" := by simpa [truthy] using ht
    subst this
    rfl

/-- C5 counterexample: a runtime config update whose legacy destination
contains backslashes produces an active rule whose destination still
contains them — the normalizer performs no backslash canonicalization. -/
theorem C5_counterexample :
    (update_filter_config (.map []) [("f", .obj [("v", .str "http:\\h\\p")])]).2
      = [⟨some "f", some "eq", .str "v", .str "http:\\h\\p", .null⟩] ∧
    ("http:\\h\\p".data.contains '\\') = true :=
  ⟨rfl, rfl⟩

/-- C5 (amended): backslash canonicalization is a startup-only step outside
`_normalize_filters` — the startup loop leaves every string destination it
outputs backslash-free, while the normalizer itself returns destinations
verbatim, and the runtime config-update path publishes the plain normalizer
output with no canonicalization step. -/
theorem C5_canonicalization_startup_only :
    (∀ (rules out : List Rule), canonicalizeRulesE rules = .ok out →
      ∀ r ∈ out, ∀ s, r.api_endpoint = .str s → s.data.contains '\\' = false) ∧
    (∀ (f mv d : String),
      normalize_filters (.map [(f, .obj [(mv, .str d)])])
        = [⟨some f, some "eq", .str mv, .str d, .null⟩]) ∧
    (∀ (active : RawConfig) (cfg : List (String × JsonVal)),
      (update_filter_config active cfg).2
        = normalize_filters (update_filter_config active cfg).1) := by
  refine ⟨?_, ?_, ?_⟩
  · intro rules
    induction rules with
    | nil =>
      intro out h r hr
      cases h
      cases hr
    | cons r0 rest ih =>
      intro out h r hr
      simp only [canonicalizeRulesE, Bind.bind, Except.bind] at h
      cases hc : canonRuleE r0 with
      | error e => rw [hc] at h; cases h
      | ok r0' =>
        rw [hc] at h
        cases hrest : canonicalizeRulesE rest with
        | error e => rw [hrest] at h; cases h
        | ok out' =>
          rw [hrest, Except.ok.injEq] at h
          subst h
          cases hr with
          | head => exact canonRuleE_clean r0 _ hc
          | tail _ h2 => exact ih out' hrest r h2
  · intro f mv d
    rfl
  · intro active cfg
    rfl

/-- Witness for C5 at a concrete input: the startup loop rewrites a
backslashed destination to forward slashes. -/
theorem C5_canonicalization_startup_only_witness :
    ("http:/h/p".data.contains '\\') = false :=
  C5_canonicalization_startup_only.1
    [⟨some "f", some "eq", .str "v", .str "http:\\h\\p", .null⟩]
    [⟨some "f", some "eq", .str "v", .str "http:/h/p", .null⟩]
    rfl
    ⟨some "f", some "eq", .str "v", .str "http:/h/p", .null⟩
    (List.Mem.head _)
    "http:/h/p"
    rfl

/-- C6 counterexample: with a list-form active configuration (the shipped
default shape), a config update replaces the document wholesale — the active
rule for field `g` is dropped rather than preserved. -/
theorem C6_counterexample :
    (update_filter_config (.list [.rule ⟨some "g", some "eq", .num 1, .str "http://g", .null⟩])
        [("f", .obj [("v", .str "http://x")])]).1
      = .map [("f", .obj [("v", .str "http://x")])] ∧
    (update_filter_config (.list [.rule ⟨some "g", some "eq", .num 1, .str "http://g", .null⟩])
        [("f", .obj [("v", .str "http://x")])]).2
      = [⟨some "f", some "eq", .str "v", .str "http://x", .null⟩] ∧
    ((update_filter_config (.list [.rule ⟨some "g", some "eq", .num 1, .str "http://g", .null⟩])
        [("f", .obj [("v", .str "http://x")])]).2.all
      (fun r => r.field != some "g")) = true :=
  ⟨rfl, rfl, rfl⟩

/-- C6 (amended): the config-update operation merges only when the active
document is a mapping — named entries are overwritten in place, unnamed
entries preserved, new entries appended — and then re-normalizes the merged
document; when the active document is a list (or any non-mapping), the
update replaces it wholesale before re-normalizing. -/
theorem C6_update_merge_semantics :
    (∀ (entries cfg : List (String × JsonVal)),
      update_filter_config (.map entries) cfg
        = (.map (dictUpdate entries cfg),
           normalize_filters (.map (dictUpdate entries cfg)))) ∧
    (∀ (entries cfg : List (String × JsonVal)) (k : String),
      (cfg.find? (fun q => q.1 == k)).isNone = true →
      (dictUpdate entries cfg).find? (fun p => p.1 == k)
        = entries.find? (fun p => p.1 == k)) ∧
    (∀ (items : List RawItem) (cfg : List (String × JsonVal)),
      update_filter_config (.list items) cfg
        = (.map cfg, normalize_filters (.map cfg))) := by
  refine ⟨fun entries cfg => rfl, ?_, fun items cfg => rfl⟩
  intro entries cfg k hk
  rw [Option.isNone_iff_eq_none] at hk
  have hnotin : ∀ q ∈ cfg, (q.1 == k) = false := by
    intro q hq
    have := List.find?_eq_none.mp hk q hq
    simpa using this
  have happend : ∀ (l1 l2 : List (String × JsonVal)),
      l2.find? (fun p => p.1 == k) = none →
      (l1 ++ l2).find? (fun p => p.1 == k) = l1.find? (fun p => p.1 == k) := by
    intro l1 l2 h2
    induction l1 with
    | nil => simpa using h2
    | cons a l1 ih =>
      simp only [List.cons_append, List.find?_cons]
      cases (a.1 == k) <;> simp [ih]
  have hfilter : (cfg.filter
      (fun q => (entries.find? (fun p => p.1 == q.1)).isNone)).find?
        (fun p => p.1 == k) = none := by
    apply List.find?_eq_none.mpr
    intro q hq
    simp [hnotin q (List.mem_of_mem_filter hq)]
  rw [dictUpdate, happend _ _ hfilter]
  have hmap : ∀ rest : List (String × JsonVal),
      (rest.map (dictUpdateEntry cfg)).find? (fun p => p.1 == k)
        = rest.find? (fun p => p.1 == k) := by
    intro rest
    induction rest with
    | nil => rfl
    | cons p rest ih =>
      have hkey : (dictUpdateEntry cfg p).1 = p.1 := by
        cases hcf : cfg.find? (fun q => q.1 == p.1) <;>
          simp [dictUpdateEntry, hcf]
      by_cases hpk : (p.1 == k) = true
      · have hp1 : p.1 = k := by simpa using hpk
        have hcf : cfg.find? (fun q => q.1 == p.1) = none := by
          rw [hp1]
          exact hk
        have hfp : dictUpdateEntry cfg p = p := by simp [dictUpdateEntry, hcf]
        simp only [List.map_cons, List.find?_cons, hfp, hpk]
      · have hpk2 : (p.1 == k) = false := by simpa using hpk
        have hfk : ((dictUpdateEntry cfg p).1 == k) = false := by
          rw [hkey]
          exact hpk2
        simp only [List.map_cons, List.find?_cons, hfk, hpk2, ih]
  exact hmap entries

/-- Witness for C6 at concrete inputs: an entry not named in the update
survives the merge. -/
theorem C6_update_merge_semantics_witness :
    (dictUpdate [("a", .num 1)] [("b", .num 2)]).find? (fun p => p.1 == "a")
      = [(("a" : String), JsonVal.num 1)].find? (fun p => p.1 == "a") :=
  C6_update_merge_semantics.2.1 [("a", .num 1)] [("b", .num 2)] "a" rfl

/-- C10 counterexample: on a bare-key rule whose matching key sits only
below the payload's top level, the `src/main.py` evaluator matches (its
recursive search finds the nested key) while the `src/router.py` copy does
not (its top-level lookup misses). -/
theorem C10_counterexample :
    evalRuleMain ⟨some "k", some "eq", .num 5, .null, .null⟩
      (.obj [("a", .obj [("k", .num 5)])]) = true ∧
    evalRuleRouter ⟨some "k", some "eq", .num 5, .null, .null⟩
      (.obj [("a", .obj [("k", .num 5)])]) = false :=
  ⟨rfl, rfl⟩

/-- C10 (amended): the two evaluator copies agree on every rule whose field
contains a dot, and on bare-key rules whenever the key is present at the
payload's top level or the recursive search comes up empty; they can differ
only when a bare key occurs solely below the top level. -/
theorem C10_evaluators_agree (rule : Rule) (data : JsonVal)
    (h : ∀ s, rule.field = some s →
      hasDot s = true ∨ topHasKey data s = true ∨ findRecursive s data = .null) :
    evalRuleMain rule data = evalRuleRouter rule data := by
  have hres : getFieldMain data rule.field = getFieldRouter data rule.field := by
    cases hf : rule.field with
    | none => rfl
    | some s =>
      have hs := h s hf
      by_cases hd : hasDot s = true
      · simp [getFieldMain, getFieldRouter, hd]
      · have hd2 : hasDot s = false := by simpa using hd
        have hsplit : splitDot s = [s] := splitDot_no_dot s hd2
        simp only [getFieldMain, getFieldRouter, hsplit, hd2, Bool.false_eq_true,
          if_false]
        rcases hs with h1 | h2 | h3
        · exact absurd h1 hd
        · cases data with
          | obj fields =>
            simp only [topHasKey, Option.isSome_iff_exists] at h2
            obtain ⟨q, hq⟩ := h2
            simp only [findRecursive, walkPath, hq]
          | null => simp [topHasKey] at h2
          | bool b => simp [topHasKey] at h2
          | num n => simp [topHasKey] at h2
          | str s2 => simp [topHasKey] at h2
          | arr items => simp [topHasKey] at h2
        · rw [h3]
          cases data with
          | obj fields =>
            cases hq : fields.find? (fun p => p.1 == s) with
            | some q =>
              simp only [findRecursive, hq] at h3
              simp only [walkPath, hq, h3]
            | none => simp only [walkPath, hq]
          | null => rfl
          | bool b => rfl
          | num n => rfl
          | str s2 => rfl
          | arr items => rfl
  simp only [evalRuleMain, evalRuleRouter, hres]

/-- Witness for C10 at a concrete input: both copies resolve a dotted field
identically and match. -/
theorem C10_evaluators_agree_witness :
    evalRuleMain ⟨some "user.id", some "eq", .num 42, .null, .null⟩
        (.obj [("user", .obj [("id", .num 42)])])
      = evalRuleRouter ⟨some "user.id", some "eq", .num 42, .null, .null⟩
        (.obj [("user", .obj [("id", .num 42)])]) :=
  C10_evaluators_agree ⟨some "user.id", some "eq", .num 42, .null, .null⟩
    (.obj [("user", .obj [("id", .num 42)])])
    (fun s hs => by
      injection hs with h2
      subst h2
      exact Or.inl rfl)

theorem noNullBindFields_no_null (k : String) :
    ∀ fields : List (String × JsonVal), noNullBindFields k fields = true →
      ∀ p ∈ fields, (p.1 == k) = true → isNull p.2 = false := by
  intro fields
  induction fields with
  | nil =>
    intro _ p hp
    cases hp
  | cons q rest ih =>
    intro h p hp hpk
    simp only [noNullBindFields, Bool.and_eq_true] at h
    cases hp with
    | head => simpa [hpk] using h.1.1
    | tail _ hp2 => exact ih h.2 p hp2 hpk

theorem isNull_false_ne (v : JsonVal) (h : isNull v = false) : v ≠ .null := by
  intro hv
  subst hv
  cases h

theorem findRec_dfs_spec (k : String) : ∀ t : JsonVal, noNullBind k t = true →
    (findRecursive k t = (dfsFirst k t).getD .null ∧ dfsFirst k t ≠ some .null) := by
  refine findRecursive.induct k
    (fun t => noNullBind k t = true →
      (findRecursive k t = (dfsFirst k t).getD .null ∧ dfsFirst k t ≠ some .null))
    (fun items => noNullBindItems k items = true →
      (findRecItems k items = (dfsFirstItems k items).getD .null ∧
       dfsFirstItems k items ≠ some .null))
    (fun fields => noNullBindFields k fields = true →
      (findRecFields k fields = (dfsFirstFields k fields).getD .null ∧
       dfsFirstFields k fields ≠ some .null))
    ?_ ?_ ?_ ?_ ?_ ?_ ?_ ?_ ?_ ?_
  · intro fields p hfind hnn
    simp only [noNullBind] at hnn
    have hmem := List.mem_of_find?_eq_some hfind
    have hpred : (p.1 == k) = true := by
      have := List.find?_some hfind
      simpa using this
    have hne := isNull_false_ne p.2 (noNullBindFields_no_null k fields hnn p hmem hpred)
    refine ⟨?_, ?_⟩
    · simp only [findRecursive, dfsFirst, hfind, Option.getD_some]
    · simp only [dfsFirst, hfind]
      intro hc
      injection hc with hx
      exact hne hx
  · intro fields hfind ih hnn
    simp only [noNullBind] at hnn
    obtain ⟨h1, h2⟩ := ih hnn
    refine ⟨?_, ?_⟩
    · simp only [findRecursive, dfsFirst, hfind]
      exact h1
    · simp only [dfsFirst, hfind]
      exact h2
  · intro items ih hnn
    simp only [noNullBind] at hnn
    obtain ⟨h1, h2⟩ := ih hnn
    refine ⟨?_, ?_⟩
    · simp only [findRecursive, dfsFirst]
      exact h1
    · simp only [dfsFirst]
      exact h2
  · intro t hobj harr _
    cases t with
    | null => exact ⟨rfl, fun hc => Option.noConfusion hc⟩
    | bool b => exact ⟨rfl, fun hc => Option.noConfusion hc⟩
    | num n => exact ⟨rfl, fun hc => Option.noConfusion hc⟩
    | str s => exact ⟨rfl, fun hc => Option.noConfusion hc⟩
    | arr items => exact absurd rfl (harr items)
    | obj fields => exact absurd rfl (hobj fields)
  · intro _
    exact ⟨rfl, fun hc => Option.noConfusion hc⟩
  · intro v rest hnullv ihv ihrest hnn
    simp only [noNullBindItems, Bool.and_eq_true] at hnn
    obtain ⟨hv1, hv2⟩ := ihv hnn.1
    have hdf : dfsFirst k v = none := by
      cases hdf : dfsFirst k v with
      | none => rfl
      | some x =>
        rw [hdf, Option.getD_some] at hv1
        rw [hnullv] at hv1
        have hx : x = JsonVal.null := hv1.symm
        rw [hx] at hdf
        exact absurd hdf hv2
    refine ⟨?_, ?_⟩
    · simp only [findRecItems, hnullv, dfsFirstItems, hdf]
      exact (ihrest hnn.2).1
    · simp only [dfsFirstItems, hdf]
      exact (ihrest hnn.2).2
  · intro v rest hnotnull ihv hnn
    simp only [noNullBindItems, Bool.and_eq_true] at hnn
    obtain ⟨hv1, hv2⟩ := ihv hnn.1
    cases hdf : dfsFirst k v with
    | none =>
      rw [hdf] at hv1
      exact absurd hv1 hnotnull
    | some x =>
      rw [hdf] at hv1
      have hfr : findRecItems k (v :: rest) = findRecursive k v := by
        simp only [findRecItems]
      refine ⟨?_, ?_⟩
      · rw [hfr, hv1]
        simp only [dfsFirstItems, hdf, Option.getD_some]
      · simp only [dfsFirstItems, hdf]
        intro hc
        injection hc with hx
        rw [hx] at hv1
        exact hnotnull hv1
  · intro _
    exact ⟨rfl, fun hc => Option.noConfusion hc⟩
  · intro p rest hnullv ihv ihrest hnn
    simp only [noNullBindFields, Bool.and_eq_true] at hnn
    obtain ⟨hv1, hv2⟩ := ihv hnn.1.2
    have hdf : dfsFirst k p.2 = none := by
      cases hdf : dfsFirst k p.2 with
      | none => rfl
      | some x =>
        rw [hdf, Option.getD_some] at hv1
        rw [hnullv] at hv1
        have hx : x = JsonVal.null := hv1.symm
        rw [hx] at hdf
        exact absurd hdf hv2
    refine ⟨?_, ?_⟩
    · simp only [findRecFields, hnullv, dfsFirstFields, hdf]
      exact (ihrest hnn.2).1
    · simp only [dfsFirstFields, hdf]
      exact (ihrest hnn.2).2
  · intro p rest hnotnull ihv hnn
    simp only [noNullBindFields, Bool.and_eq_true] at hnn
    obtain ⟨hv1, hv2⟩ := ihv hnn.1.2
    cases hdf : dfsFirst k p.2 with
    | none =>
      rw [hdf] at hv1
      exact absurd hv1 hnotnull
    | some x =>
      rw [hdf] at hv1
      have hfr : findRecFields k (p :: rest) = findRecursive k p.2 := by
        simp only [findRecFields]
      refine ⟨?_, ?_⟩
      · rw [hfr, hv1]
        simp only [dfsFirstFields, hdf, Option.getD_some]
      · simp only [dfsFirstFields, hdf]
        intro hc
        injection hc with hx
        rw [hx] at hv1
        exact hnotnull hv1

/-- C3 counterexample: when the first mapping in traversal order binds the
key to JSON `null`, the code does not return that first match's value — it
skips it and returns a later occurrence (`5`), while the spec's depth-first
first-match is the `null`. -/
theorem C3_counterexample :
    ¬ (findRecursive "k" (.obj [("a", .obj [("k", .null)]), ("b", .obj [("k", .num 5)])])
       = (dfsFirst "k"
           (.obj [("a", .obj [("k", .null)]), ("b", .obj [("k", .num 5)])])).getD .null) := by
  intro h
  have h5 : JsonVal.num 5 = JsonVal.null := h
  cases h5

/-- C3 (amended): on every tree in which no mapping binds the searched key
to JSON `null`, the bare-key resolver returns exactly the value of the first
mapping containing the key in depth-first traversal order (mapping keys in
stored order, sequence elements in index order, a mapping tested for the key
before its children), and `null`/absent when no mapping contains the key;
occurrences bound to `null` are skipped by the code, so the claim as stated
holds only under this restriction. -/
theorem C3_bare_key_first_match (t : JsonVal) (k : String)
    (h : noNullBind k t = true) :
    findRecursive k t = (dfsFirst k t).getD .null :=
  (findRec_dfs_spec k t h).1

/-- Witness for C3 at the spec's own example tree. -/
theorem C3_bare_key_first_match_witness :
    findRecursive "target_value"
        (.obj [("level1", .obj [("level2", .obj [("items",
          .arr [.obj [("name", .str "x")], .obj [("target_value", .str "found")]])])])])
      = (dfsFirst "target_value"
          (.obj [("level1", .obj [("level2", .obj [("items",
            .arr [.obj [("name", .str "x")], .obj [("target_value", .str "found")]])])])])).getD
          .null :=
  C3_bare_key_first_match _ _ rfl
